import Mathlib

/-
Shallow embedding of the TBMCells nearest-subspace classifiers
(src/my_classification/rcdt_ns.py and src/my_classification/RSCDT_NS.py).

Scalars are modelled as rationals.  External numerical routines that the
repository only calls (the RadonCDT and RadonSCDT forward transforms from
pytranskit, numpy.linalg.svd, numpy trigonometric functions and numpy.pi)
are oracle parameters of the definitions; everything the repository itself
computes is translated from the source.
-/

/-- A 1-dimensional numpy array of rationals. -/
abbrev Vec := List ℚ

/-- A 2-dimensional numpy array, stored as its list of rows. -/
abbrev Mat := List Vec

/-- The epsilon offset added to every image before the transform
(module-level constant eps = 1e-6 in both source files). -/
def npEps : ℚ := 1 / 1000000

/-- Sum of all entries of a matrix (numpy sum over a 2d array). -/
def matSum (M : Mat) : ℚ := (M.map (fun r => r.sum)).sum

/-- Divide every entry of a matrix by a scalar (numpy array / scalar). -/
def matScalarDiv (M : Mat) (c : ℚ) : Mat := M.map (fun r => r.map (fun x => x / c))

/-- Matrix of ones with the same shape as the argument
(numpy ones of I.shape, numpy ones_like). -/
def onesLike (M : Mat) : Mat := M.map (fun r => r.map (fun _ => (1 : ℚ)))

/-- Add a scalar to every entry (numpy array + eps). -/
def matAddScalar (M : Mat) (c : ℚ) : Mat := M.map (fun r => r.map (fun x => x + c))

/-- Total number of entries of a matrix. -/
def entryCount (M : Mat) : ℕ := (M.map List.length).sum

/-- Dot product of two vectors (zip-truncating; shapes agree in all uses). -/
def dot (a b : Vec) : ℚ := (List.zipWith (fun x y => x * y) a b).sum

/-- Prefix sums of a list (numpy cumsum): entry i is the sum of the
first i+1 elements. -/
def cumsum (l : List ℚ) : List ℚ :=
  (List.range l.length).map (fun i => (l.take (i + 1)).sum)

/-- Maximum entry of a nonempty list; none on the empty list, where
numpy max raises (numpy max). -/
def npMax : List ℚ → Option ℚ
  | [] => none
  | a :: l => some (l.foldl max a)

/-- Minimum entry of a nonempty list, 0 on the empty list (numpy min of a
nonempty array; predict only applies it to nonempty stacks). -/
def listMin : List ℚ → ℚ
  | [] => 0
  | a :: l => l.foldl min a

/-- Index of the first element satisfying the predicate; none when no
element does, where numpy indexing of an empty where-result raises. -/
def firstIdxWhere (p : ℚ → Prop) [DecidablePred p] : List ℚ → Option ℕ
  | [] => none
  | a :: l => if p a then some 0 else (firstIdxWhere p l).map (fun i => i + 1)

/-- Index of the first occurrence of the minimum value
(numpy argmin over a 1-dimensional array: ties go to the lowest index). -/
def argminIdx : List ℚ → ℕ
  | [] => 0
  | a :: l => if a = listMin (a :: l) then 0 else argminIdx l + 1

/-- Chunk sizes used by numpy array_split: splitting a length len sequence
into n parts gives len mod n parts of size len / n + 1 followed by the
remaining parts of size len / n. -/
def splitSizes (len n : ℕ) : List ℕ :=
  List.replicate (len % n) (len / n + 1) ++ List.replicate (n - len % n) (len / n)

/-- Cut a list into consecutive chunks of the given sizes. -/
def chunksBySizes : List ℕ → List Mat → List (List Mat)
  | [], _ => []
  | s :: ss, l => l.take s :: chunksBySizes ss (l.drop s)

/-- numpy array_split along axis 0 of a stack of images. -/
def arraySplit (l : List Mat) (n : ℕ) : List (List Mat) :=
  chunksBySizes (splitSizes l.length n) l

/-- Argument record handed to the external forward transform: the angles
given to the transform constructor (none means the library default was
used because the constructor was called without arguments), and the five
positional arguments of forward. -/
structure TransformArgs where
  thetas : Option (List ℚ)
  x0Range : List ℚ
  template : Mat
  xRange : List ℚ
  image : Mat
  rmEdge : Bool
deriving DecidableEq

/-- State of either classifier object: the fields set by the constructor
of MY_RDCT_NS and of RSCDT_NS. -/
structure NSState where
  num_classes : ℕ
  thetas : List ℚ
  rm_edge : Bool
  subspaces : List Mat
  len_subspace : ℕ
deriving DecidableEq

/-- Constructor of both classifier classes: stores the configuration and
initializes subspaces to the empty list and len_subspace to 0. -/
def NSState.init (num_classes : ℕ) (thetas : List ℚ) (rm_edge : Bool) : NSState :=
  { num_classes := num_classes, thetas := thetas, rm_edge := rm_edge,
    subspaces := [], len_subspace := 0 }

/-- Boolean-mask selection Xdata[Y == class_idx] along axis 0. -/
def selectClass (Xdata : List Mat) (Y : List ℕ) (class_idx : ℕ) : List Mat :=
  (Xdata.zip Y).filterMap (fun p => if p.2 = class_idx then some p.1 else none)

/-- Squared Euclidean residual of one flattened sample x against the basis
of class k sliced to its first len_subspace rows: the squared norm of
(x basisT) basis - x.  The source computes the norm itself; the square
root is taken in residualNorm below. -/
def classResSq (len_subspace : ℕ) (subspaces : List Mat) (k : ℕ) (x : Vec) : ℚ :=
  let basis := (subspaces.getD k []).take len_subspace
  let proj := basis.map (fun b => dot x b)
  let recon := (List.range x.length).map (fun j => dot proj (basis.map (fun row => row.getD j 0)))
  ((recon.zip x).map (fun p => (p.1 - p.2) ^ 2)).sum

/-- Euclidean residual distance of sample x to the subspace of class k:
the quantity the source computes with LA.norm. -/
noncomputable def residualNorm (len_subspace : ℕ) (subspaces : List Mat) (k : ℕ) (x : Vec) : ℝ :=
  Real.sqrt ((classResSq len_subspace subspaces k x : ℚ) : ℝ)

/-- Shared tail of MY_RDCT_NS.predict and RSCDT_NS.predict (cpu path):
for each class the per-sample residuals of X against the sliced basis are
collected, the resulting num_classes by n stack is argmin-ed along axis 0. -/
def predictCore (num_classes len_subspace : ℕ) (subspaces : List Mat) (X : List Vec) : List ℕ :=
  let D := (List.range num_classes).map (fun k => X.map (fun x => classResSq len_subspace subspaces k x))
  (List.range X.length).map (fun i => argminIdx (D.map (fun row => row.getD i 0)))

namespace MY_RDCT_NS

/-- Arguments that MY_RDCT_NS.fun_rcdt_single passes to the external
RadonCDT transform: RadonCDT(self.thetas), then
forward(x0_range, template / sum(template), x_range, I / sum(I), self.rm_edge)
with template a ones array of the shape of I. -/
def fun_rcdt_single_args (self : NSState) (I : Mat) : TransformArgs :=
  { thetas := some self.thetas,
    x0Range := [0, 1],
    template := matScalarDiv (onesLike I) (matSum (onesLike I)),
    xRange := [0, 1],
    image := matScalarDiv I (matSum I),
    rmEdge := self.rm_edge }

/-- MY_RDCT_NS.fun_rcdt_single with the forward transform as oracle F. -/
def fun_rcdt_single (F : TransformArgs → Mat) (self : NSState) (I : Mat) : Mat :=
  F (fun_rcdt_single_args self I)

/-- MY_RDCT_NS.fun_rcdt_batch: the single transform applied to
data[j] + eps for every j in order, stacked. -/
def fun_rcdt_batch (F : TransformArgs → Mat) (self : NSState) (data : List Mat) : List Mat :=
  data.map (fun I => fun_rcdt_single F self (matAddScalar I npEps))

/-- Number of worker processes used by MY_RDCT_NS.rcdt_parallel:
min(mp.cpu_count(), X.shape[0]). -/
def nCpu (cpuCount n : ℕ) : ℕ := min cpuCount n

/-- MY_RDCT_NS.rcdt_parallel: splits X into n_cpu chunks with
numpy array_split, maps fun_rcdt_batch over the chunks through the process
pool, and vstacks the partial results.  numpy array_split raises a
ValueError when the number of sections is zero, which happens exactly on
an empty batch; that failure is the error case. -/
def rcdt_parallel (F : TransformArgs → Mat) (self : NSState) (cpuCount : ℕ)
    (X : List Mat) : Except String (List Mat) :=
  let n_cpu := nCpu cpuCount X.length
  if n_cpu = 0 then
    Except.error "ValueError: number sections must be larger than 0."
  else
    Except.ok ((arraySplit X n_cpu).map (fun_rcdt_batch F self)).flatten

/-- MY_RDCT_NS.add_trans_samples with numpy cos, sin and pi as oracles
rcos, rsin and piQ: the two translation deformation vectors
cos(thetas pi / 180) and sin(thetas pi / 180) are repeated across the
projection-length axis and appended as two extra samples. -/
def add_trans_samples (rcos rsin : ℚ → ℚ) (piQ : ℚ) (thetas : List ℚ)
    (rcdt_features : List Mat) : List Mat :=
  let v1 := thetas.map (fun t => rcos (t * piQ / 180))
  let v2 := thetas.map (fun t => rsin (t * piQ / 180))
  let P := (rcdt_features.headD []).length
  rcdt_features ++ [List.replicate P v1, List.replicate P v2]

/-- MY_RDCT_NS.fit: computes the RCDTs of the training images and, per
class, the flattened (optionally augmented) class matrix.  Everything
after that point (the SVD, the cumulative-energy rank, the update of
len_subspace and the append to subspaces) is commented out in the source,
so the classifier state is returned unchanged. -/
def fit (F : TransformArgs → Mat) (rcos rsin : ℚ → ℚ) (piQ : ℚ) (self : NSState)
    (cpuCount : ℕ) (Xtrain : List Mat) (Ytrain : List ℕ) (no_deform_model : Bool) :
    Except String NSState :=
  (rcdt_parallel F self cpuCount Xtrain).map (fun Xrcdt =>
    let _flats := (List.range self.num_classes).map (fun class_idx =>
      let class_data := selectClass Xrcdt Ytrain class_idx
      if no_deform_model then class_data.map List.flatten
      else (add_trans_samples rcos rsin piQ self.thetas class_data).map List.flatten)
    self)

/-- MY_RDCT_NS.predict (cpu path): transform the test batch in parallel,
flatten each coefficient array, and run the nearest-subspace argmin. -/
def predict (F : TransformArgs → Mat) (self : NSState) (cpuCount : ℕ)
    (Xtest : List Mat) : Except String (List ℕ) :=
  Except.map
    (fun Xrcdt => predictCore self.num_classes self.len_subspace self.subspaces
      (Xrcdt.map List.flatten))
    (rcdt_parallel F self cpuCount Xtest)

end MY_RDCT_NS

namespace RSCDT_NS

/-- Arguments that RSCDT_NS.fun_rscdt_single passes to the external
RadonSCDT transform.  The source constructs RadonSCDT() without arguments
(library-default angles, hence thetas = none), uses a ones template of the
shape of I0, passes the image with no normalization, and hardcodes
rm_edge=False. -/
def fun_rscdt_single_args (self : NSState) (I0 : Mat) : TransformArgs :=
  { thetas := none,
    x0Range := [0, 1],
    template := onesLike I0,
    xRange := [0, 1],
    image := I0,
    rmEdge := false }

/-- RSCDT_NS.fun_rscdt_single with the forward transform as oracle F;
only the first component of the forward result is kept. -/
def fun_rscdt_single (F : TransformArgs → Mat) (self : NSState) (I0 : Mat) : Mat :=
  F (fun_rscdt_single_args self I0)

/-- RSCDT_NS.fun_rscdt_batch: the single transform applied to
data[j] + eps for every j in order, stacked. -/
def fun_rscdt_batch (F : TransformArgs → Mat) (self : NSState) (data : List Mat) : List Mat :=
  data.map (fun I => fun_rscdt_single F self (matAddScalar I npEps))

/-- RSCDT_NS.rscdt_parallel: despite its name it simply calls
fun_rscdt_batch on the whole batch. -/
def rscdt_parallel (F : TransformArgs → Mat) (self : NSState) (X : List Mat) : List Mat :=
  fun_rscdt_batch F self X

/-- RSCDT_NS.add_trans_samples, identical to the unsigned variant. -/
def add_trans_samples (rcos rsin : ℚ → ℚ) (piQ : ℚ) (thetas : List ℚ)
    (rscdt_features : List Mat) : List Mat :=
  let v1 := thetas.map (fun t => rcos (t * piQ / 180))
  let v2 := thetas.map (fun t => rsin (t * piQ / 180))
  let P := (rscdt_features.headD []).length
  rscdt_features ++ [List.replicate P v1, List.replicate P v2]

/-- Effective-rank computation of RSCDT_NS.fit lines 70 to 73: the
cumulative sum of the singular values is normalized by its maximum and
the first index at which it reaches 0.99 (plus one) is returned.  none
models the numpy failures on an empty array or an all-zero spectrum. -/
def maxBasis (s : List ℚ) : Option ℕ :=
  let cum := cumsum s
  match npMax cum with
  | none => none
  | some m =>
    let norm := cum.map (fun x => x / m)
    (firstIdxWhere (fun x => (99 : ℚ) / 100 ≤ x) norm).map (fun i => i + 1)

/-- Flattened per-class training matrix built by RSCDT_NS.fit lines 62 to
67: the samples of the class, optionally augmented with the two
translation vectors, each reshaped to one row. -/
def classFlat (rcos rsin : ℚ → ℚ) (piQ : ℚ) (no_deform_model : Bool) (thetas : List ℚ)
    (Xrscdt : List Mat) (Ytrain : List ℕ) (class_idx : ℕ) : Mat :=
  let class_data := selectClass Xrscdt Ytrain class_idx
  if no_deform_model then class_data.map List.flatten
  else (add_trans_samples rcos rsin piQ thetas class_data).map List.flatten

/-- Body of the per-class loop of RSCDT_NS.fit with numpy.linalg.svd as
oracle (returning the pair of the singular values and vh): computes the
flattened class matrix, its reduced SVD, the 99 percent cumulative-energy
rank, raises len_subspace to it when it exceeds the running maximum, and
appends vh sliced to the first flat-row-count rows to subspaces.  The
error cases model the numpy failures on a class with no samples and on an
empty where-result. -/
def fitClassStep (svd : Mat → List ℚ × Mat) (rcos rsin : ℚ → ℚ) (piQ : ℚ)
    (no_deform_model : Bool) (Xrscdt : List Mat) (Ytrain : List ℕ)
    (self : NSState) (class_idx : ℕ) : Except String NSState :=
  let flat := classFlat rcos rsin piQ no_deform_model self.thetas Xrscdt Ytrain class_idx
  if flat.isEmpty then
    Except.error "LinAlgError: class with no training samples"
  else
    let sv := svd flat
    match maxBasis sv.1 with
    | none => Except.error "IndexError: cumulative energy never reaches the threshold"
    | some max_basis =>
      Except.ok
        { self with
          len_subspace := if max_basis > self.len_subspace then max_basis else self.len_subspace,
          subspaces := self.subspaces ++ [sv.2.take flat.length] }

/-- RSCDT_NS.fit: batch transform of the training images followed by the
per-class basis construction loop over class indices 0 to num_classes-1. -/
def fit (F : TransformArgs → Mat) (svd : Mat → List ℚ × Mat) (rcos rsin : ℚ → ℚ)
    (piQ : ℚ) (self : NSState) (Xtrain : List Mat) (Ytrain : List ℕ)
    (no_deform_model : Bool) : Except String NSState :=
  let Xrscdt := rscdt_parallel F self Xtrain
  (List.range self.num_classes).foldlM
    (fitClassStep svd rcos rsin piQ no_deform_model Xrscdt Ytrain) self

/-- RSCDT_NS.predict (cpu path): transform the test batch, flatten each
coefficient array, and run the nearest-subspace argmin. -/
def predict (F : TransformArgs → Mat) (self : NSState) (Xtest : List Mat) : List ℕ :=
  predictCore self.num_classes self.len_subspace self.subspaces
    ((rscdt_parallel F self Xtest).map List.flatten)

end RSCDT_NS

/- Helper lemmas on the numpy-style list operations. -/

theorem foldl_min_le_init (l : List ℚ) : ∀ a : ℚ, l.foldl min a ≤ a := by
  induction l with
  | nil => intro a; exact le_refl a
  | cons b t ih =>
    intro a
    calc (b :: t).foldl min a = t.foldl min (min a b) := rfl
    _ ≤ min a b := ih (min a b)
    _ ≤ a := min_le_left a b

theorem foldl_min_le_mem (l : List ℚ) : ∀ (a x : ℚ), x ∈ l → l.foldl min a ≤ x := by
  induction l with
  | nil => intro a x hx; cases hx
  | cons b t ih =>
    intro a x hx
    rcases List.mem_cons.mp hx with h | h
    · subst h
      calc (x :: t).foldl min a = t.foldl min (min a x) := rfl
      _ ≤ min a x := foldl_min_le_init t (min a x)
      _ ≤ x := min_le_right a x
    · exact ih (min a b) x h

theorem foldl_min_eq_or_mem (l : List ℚ) : ∀ a : ℚ, l.foldl min a = a ∨ l.foldl min a ∈ l := by
  induction l with
  | nil => intro a; exact Or.inl rfl
  | cons b t ih =>
    intro a
    rcases ih (min a b) with h | h
    · rcases min_choice a b with hc | hc
      · exact Or.inl (by rw [show (b :: t).foldl min a = t.foldl min (min a b) from rfl, h, hc])
      · refine Or.inr ?_
        rw [show (b :: t).foldl min a = t.foldl min (min a b) from rfl, h, hc]
        exact List.mem_cons_self b t
    · exact Or.inr (List.mem_cons_of_mem b h)

theorem listMin_le_mem (l : List ℚ) (x : ℚ) (hx : x ∈ l) : listMin l ≤ x := by
  cases l with
  | nil => cases hx
  | cons a t =>
    rcases List.mem_cons.mp hx with h | h
    · subst h; exact foldl_min_le_init t x
    · exact foldl_min_le_mem t a x h

theorem listMin_mem (l : List ℚ) (hl : l ≠ []) : listMin l ∈ l := by
  cases l with
  | nil => exact absurd rfl hl
  | cons a t =>
    rcases foldl_min_eq_or_mem t a with h | h
    · rw [show listMin (a :: t) = t.foldl min a from rfl, h]; exact List.mem_cons_self a t
    · exact List.mem_cons_of_mem a h

theorem foldl_min_cons_ne (l : List ℚ) : ∀ a : ℚ, l ≠ [] → l.foldl min a = min a (listMin l) := by
  induction l with
  | nil => intro a h; exact absurd rfl h
  | cons b t ih =>
    intro a _
    by_cases ht : t = []
    · subst ht; simp [listMin]
    · calc (b :: t).foldl min a = t.foldl min (min a b) := rfl
      _ = min (min a b) (listMin t) := ih (min a b) ht
      _ = min a (min b (listMin t)) := min_assoc a b (listMin t)
      _ = min a (t.foldl min b) := by rw [ih b ht]
      _ = min a (listMin (b :: t)) := rfl

theorem listMin_cons_ne_head (a : ℚ) (t : List ℚ) (h : a ≠ listMin (a :: t)) :
    t ≠ [] ∧ listMin (a :: t) = listMin t ∧ listMin t < a := by
  have ht : t ≠ [] := by
    intro he; subst he
    exact h (by simp [listMin])
  have hc : listMin (a :: t) = min a (listMin t) := foldl_min_cons_ne t a ht
  have hlt : listMin t < a := by
    by_contra hge
    push_neg at hge
    exact h (by rw [hc, min_eq_left hge])
  exact ⟨ht, by rw [hc, min_eq_right (le_of_lt hlt)], hlt⟩

theorem argminIdx_spec (l : List ℚ) (hl : l ≠ []) :
    argminIdx l < l.length ∧ l.getD (argminIdx l) 0 = listMin l ∧
      ∀ j < argminIdx l, listMin l < l.getD j 0 := by
  induction l with
  | nil => exact absurd rfl hl
  | cons a t ih =>
    have heq : argminIdx (a :: t) = if a = listMin (a :: t) then 0 else argminIdx t + 1 := rfl
    by_cases ha : a = listMin (a :: t)
    · have hidx : argminIdx (a :: t) = 0 := by rw [heq, if_pos ha]
      refine ⟨?_, ?_, ?_⟩
      · rw [hidx]; exact Nat.succ_pos _
      · rw [hidx]; simpa using ha
      · intro j hj
        rw [hidx] at hj
        exact absurd hj (Nat.not_lt_zero j)
    · obtain ⟨ht, hmin, hlt⟩ := listMin_cons_ne_head a t ha
      obtain ⟨ih1, ih2, ih3⟩ := ih ht
      have hidx : argminIdx (a :: t) = argminIdx t + 1 := by rw [heq, if_neg ha]
      refine ⟨?_, ?_, ?_⟩
      · rw [hidx]; simpa using Nat.succ_lt_succ ih1
      · rw [hidx, hmin]
        simpa using ih2
      · intro j hj
        rw [hidx] at hj
        cases j with
        | zero => simpa [hmin] using hlt
        | succ j' =>
          have hj' : j' < argminIdx t := Nat.lt_of_succ_lt_succ hj
          rw [hmin]
          simpa using ih3 j' hj'

theorem firstIdxWhere_eq_some (p : ℚ → Prop) [DecidablePred p] (l : List ℚ) (i : ℕ)
    (h : firstIdxWhere p l = some i) :
    i < l.length ∧ p (l.getD i 0) ∧ ∀ j < i, ¬ p (l.getD j 0) := by
  induction l generalizing i with
  | nil => simp [firstIdxWhere] at h
  | cons a t ih =>
    by_cases hp : p a
    · simp [firstIdxWhere, hp] at h
      subst h
      exact ⟨Nat.succ_pos _, by simpa using hp, fun j hj => absurd hj (Nat.not_lt_zero j)⟩
    · simp [firstIdxWhere, hp] at h
      obtain ⟨i', hi', rfl⟩ := h
      obtain ⟨h1, h2, h3⟩ := ih i' hi'
      refine ⟨Nat.succ_lt_succ h1, by simpa using h2, ?_⟩
      intro j hj
      cases j with
      | zero => simpa using hp
      | succ j' => simpa using h3 j' (Nat.lt_of_succ_lt_succ hj)

theorem firstIdxWhere_isSome (p : ℚ → Prop) [DecidablePred p] (l : List ℚ) (x : ℚ)
    (hx : x ∈ l) (hp : p x) : ∃ i, firstIdxWhere p l = some i := by
  induction l with
  | nil => cases hx
  | cons a t ih =>
    by_cases hpa : p a
    · exact ⟨0, by simp [firstIdxWhere, hpa]⟩
    · rcases List.mem_cons.mp hx with h | h
      · subst h; exact absurd hp hpa
      · obtain ⟨i, hi⟩ := ih h
        exact ⟨i + 1, by simp [firstIdxWhere, hpa, hi]⟩

theorem foldl_max_init_le (l : List ℚ) : ∀ a : ℚ, a ≤ l.foldl max a := by
  induction l with
  | nil => intro a; exact le_refl a
  | cons b t ih =>
    intro a
    calc a ≤ max a b := le_max_left a b
    _ ≤ t.foldl max (max a b) := ih (max a b)
    _ = (b :: t).foldl max a := rfl

theorem foldl_max_mem_le (l : List ℚ) : ∀ (a x : ℚ), x ∈ l → x ≤ l.foldl max a := by
  induction l with
  | nil => intro a x hx; cases hx
  | cons b t ih =>
    intro a x hx
    rcases List.mem_cons.mp hx with h | h
    · subst h
      calc x ≤ max a x := le_max_right a x
      _ ≤ t.foldl max (max a x) := foldl_max_init_le t (max a x)
      _ = (x :: t).foldl max a := rfl
    · exact ih (max a b) x h

theorem foldl_max_eq_or_mem (l : List ℚ) : ∀ a : ℚ, l.foldl max a = a ∨ l.foldl max a ∈ l := by
  induction l with
  | nil => intro a; exact Or.inl rfl
  | cons b t ih =>
    intro a
    rcases ih (max a b) with h | h
    · rcases max_choice a b with hc | hc
      · exact Or.inl (by rw [show (b :: t).foldl max a = t.foldl max (max a b) from rfl, h, hc])
      · refine Or.inr ?_
        rw [show (b :: t).foldl max a = t.foldl max (max a b) from rfl, h, hc]
        exact List.mem_cons_self b t
    · exact Or.inr (List.mem_cons_of_mem b h)

theorem npMax_eq_some (l : List ℚ) (m : ℚ) (hm : m ∈ l) (hub : ∀ x ∈ l, x ≤ m) :
    npMax l = some m := by
  cases l with
  | nil => cases hm
  | cons a t =>
    have h1 : t.foldl max a ≤ m := by
      rcases foldl_max_eq_or_mem t a with h | h
      · rw [h]; exact hub a (List.mem_cons_self a t)
      · exact hub _ (List.mem_cons_of_mem a h)
    have h2 : m ≤ t.foldl max a := by
      rcases List.mem_cons.mp hm with h | h
      · subst h; exact foldl_max_init_le t m
      · exact foldl_max_mem_le t a m h
    simp [npMax, le_antisymm h1 h2]

theorem getD_map_lt {α : Type} {β : Type} (f : α → β) (l : List α) (i : ℕ)
    (h : i < l.length) (d : β) (d' : α) :
    (l.map f).getD i d = f (l.getD i d') := by
  rw [List.getD_eq_getElem _ _ (by simpa using h), List.getD_eq_getElem _ _ h,
    List.getElem_map]

theorem sum_nonneg_of_forall (l : List ℚ) (h : ∀ x ∈ l, 0 ≤ x) : 0 ≤ l.sum := by
  induction l with
  | nil => simp
  | cons a t ih =>
    have ha := h a (List.mem_cons_self a t)
    have ht := ih (fun x hx => h x (List.mem_cons_of_mem a hx))
    simpa using add_nonneg ha ht

theorem mem_le_sum_of_nonneg (l : List ℚ) (h : ∀ x ∈ l, 0 ≤ x) (x : ℚ) (hx : x ∈ l) :
    x ≤ l.sum := by
  induction l with
  | nil => cases hx
  | cons a t ih =>
    rcases List.mem_cons.mp hx with he | he
    · subst he
      have : 0 ≤ t.sum := sum_nonneg_of_forall t (fun y hy => h y (List.mem_cons_of_mem _ hy))
      rw [List.sum_cons]
      exact le_add_of_nonneg_right this
    · have ht := ih (fun y hy => h y (List.mem_cons_of_mem a hy)) he
      have ha := h a (List.mem_cons_self a t)
      calc x ≤ t.sum := ht
      _ ≤ a + t.sum := le_add_of_nonneg_left ha
      _ = (a :: t).sum := (List.sum_cons).symm

theorem take_sum_le_sum (l : List ℚ) (h : ∀ x ∈ l, 0 ≤ x) (i : ℕ) :
    (l.take i).sum ≤ l.sum := by
  have hsplit := List.sum_take_add_sum_drop l i
  have hdrop : 0 ≤ (l.drop i).sum :=
    sum_nonneg_of_forall _ (fun x hx => h x (List.mem_of_mem_drop hx))
  linarith

theorem cumsum_length (l : List ℚ) : (cumsum l).length = l.length := by
  simp [cumsum]

theorem cumsum_getD (l : List ℚ) (i : ℕ) (h : i < l.length) (d : ℚ) :
    (cumsum l).getD i d = (l.take (i + 1)).sum := by
  rw [cumsum, List.getD_eq_getElem _ _ (by simpa using h), List.getElem_map,
    List.getElem_range]

theorem mem_cumsum (l : List ℚ) (x : ℚ) (hx : x ∈ cumsum l) :
    ∃ i < l.length, x = (l.take (i + 1)).sum := by
  rw [cumsum] at hx
  obtain ⟨i, hi, he⟩ := List.mem_map.mp hx
  exact ⟨i, List.mem_range.mp hi, he.symm⟩

theorem sum_mem_cumsum (l : List ℚ) (hl : l ≠ []) : l.sum ∈ cumsum l := by
  have hlen : 0 < l.length := List.length_pos.mpr hl
  rw [cumsum]
  refine List.mem_map.mpr ⟨l.length - 1, List.mem_range.mpr (by omega), ?_⟩
  rw [show l.length - 1 + 1 = l.length by omega, List.take_of_length_le (le_refl _)]

theorem npMax_cumsum (l : List ℚ) (hl : l ≠ []) (h : ∀ x ∈ l, 0 ≤ x) :
    npMax (cumsum l) = some l.sum := by
  refine npMax_eq_some _ _ (sum_mem_cumsum l hl) ?_
  intro x hx
  obtain ⟨i, _, he⟩ := mem_cumsum l x hx
  rw [he]
  exact take_sum_le_sum l h (i + 1)

theorem splitSizes_sum (len n : ℕ) (hn : 1 ≤ n) : (splitSizes len n).sum = len := by
  have hmod : len % n < n := Nat.mod_lt len hn
  rw [splitSizes, List.sum_append, List.sum_replicate, List.sum_replicate,
    smul_eq_mul, smul_eq_mul]
  have hdm := Nat.div_add_mod len n
  have hsub : (n - len % n) * (len / n) = n * (len / n) - len % n * (len / n) :=
    Nat.sub_mul (n) (len % n) (len / n)
  have hle : len % n * (len / n) ≤ n * (len / n) :=
    Nat.mul_le_mul_right _ (le_of_lt hmod)
  calc len % n * (len / n + 1) + (n - len % n) * (len / n)
      = len % n * (len / n) + len % n + (n * (len / n) - len % n * (len / n)) := by
        rw [Nat.mul_add, Nat.mul_one, hsub]
  _ = n * (len / n) + len % n := by omega
  _ = len := hdm

theorem splitSizes_length (len n : ℕ) (hn : 1 ≤ n) : (splitSizes len n).length = n := by
  rw [splitSizes, List.length_append, List.length_replicate, List.length_replicate]
  have := Nat.mod_lt len hn
  omega

theorem chunksBySizes_flatten (sizes : List ℕ) :
    ∀ l : List Mat, l.length ≤ sizes.sum → (chunksBySizes sizes l).flatten = l := by
  induction sizes with
  | nil =>
    intro l hl
    have : l = [] := List.eq_nil_of_length_eq_zero (Nat.le_zero.mp (by simpa using hl))
    subst this
    rfl
  | cons s ss ih =>
    intro l hl
    have hdrop : (l.drop s).length ≤ ss.sum := by
      rw [List.length_drop]
      rw [List.sum_cons] at hl
      omega
    calc (chunksBySizes (s :: ss) l).flatten
        = l.take s ++ (chunksBySizes ss (l.drop s)).flatten := rfl
    _ = l.take s ++ l.drop s := by rw [ih (l.drop s) hdrop]
    _ = l := List.take_append_drop s l

theorem chunksBySizes_length (sizes : List ℕ) :
    ∀ l : List Mat, (chunksBySizes sizes l).length = sizes.length := by
  induction sizes with
  | nil => intro l; rfl
  | cons s ss ih =>
    intro l
    calc (chunksBySizes (s :: ss) l).length
        = (chunksBySizes ss (l.drop s)).length + 1 := rfl
    _ = ss.length + 1 := by rw [ih]

theorem arraySplit_flatten (l : List Mat) (n : ℕ) (hn : 1 ≤ n) :
    (arraySplit l n).flatten = l := by
  rw [arraySplit]
  exact chunksBySizes_flatten _ l (by rw [splitSizes_sum l.length n hn])

theorem arraySplit_length (l : List Mat) (n : ℕ) (hn : 1 ≤ n) : (arraySplit l n).length = n := by
  rw [arraySplit, chunksBySizes_length, splitSizes_length _ _ hn]

theorem classResSq_nonneg (len_subspace : ℕ) (subspaces : List Mat) (k : ℕ) (x : Vec) :
    0 ≤ classResSq len_subspace subspaces k x := by
  refine sum_nonneg_of_forall _ ?_
  intro y hy
  obtain ⟨p, _, he⟩ := List.mem_map.mp hy
  rw [← he]
  exact sq_nonneg _

theorem row_ones_sum (r : Vec) : (r.map (fun _ => (1 : ℚ))).sum = (r.length : ℚ) := by
  induction r with
  | nil => simp
  | cons a t ih => simp [ih]; ring

theorem matSum_onesLike (M : Mat) : matSum (onesLike M) = (entryCount M : ℚ) := by
  rw [matSum, onesLike, entryCount, List.map_map, Nat.cast_list_sum, List.map_map]
  congr 1
  refine List.map_congr_left ?_
  intro r _
  exact row_ones_sum r

theorem fitClassStep_ok (svd : Mat → List ℚ × Mat) (rcos rsin : ℚ → ℚ) (piQ : ℚ)
    (nd : Bool) (Xr : List Mat) (Y : List ℕ) (st : NSState) (c : ℕ) (st' : NSState)
    (h : RSCDT_NS.fitClassStep svd rcos rsin piQ nd Xr Y st c = Except.ok st') :
    st'.num_classes = st.num_classes ∧ st'.thetas = st.thetas ∧
      st'.rm_edge = st.rm_edge ∧ st.len_subspace ≤ st'.len_subspace ∧
      st'.subspaces = st.subspaces ++
        [(svd (RSCDT_NS.classFlat rcos rsin piQ nd st.thetas Xr Y c)).2.take
          (RSCDT_NS.classFlat rcos rsin piQ nd st.thetas Xr Y c).length] := by
  simp only [RSCDT_NS.fitClassStep] at h
  split at h
  · exact absurd h (by simp)
  · split at h
    · exact absurd h (by simp)
    · have he := Except.ok.inj h
      subst he
      refine ⟨rfl, rfl, rfl, ?_, rfl⟩
      dsimp only
      split
      · omega
      · exact le_refl _

theorem fit_foldlM_ok (svd : Mat → List ℚ × Mat) (rcos rsin : ℚ → ℚ) (piQ : ℚ)
    (nd : Bool) (Xr : List Mat) (Y : List ℕ) (l : List ℕ) :
    ∀ (st st' : NSState),
      List.foldlM (RSCDT_NS.fitClassStep svd rcos rsin piQ nd Xr Y) st l = Except.ok st' →
      st'.num_classes = st.num_classes ∧ st'.thetas = st.thetas ∧
        st'.rm_edge = st.rm_edge ∧ st.len_subspace ≤ st'.len_subspace ∧
        ∃ bs, st'.subspaces = st.subspaces ++ bs ∧ bs.length = l.length := by
  induction l with
  | nil =>
    intro st st' h
    have : st = st' := by simpa [List.foldlM, pure, Except.pure] using h
    subst this
    exact ⟨rfl, rfl, rfl, le_refl _, [], by simp, rfl⟩
  | cons c t ih =>
    intro st st' h
    rw [List.foldlM_cons] at h
    cases hstep : RSCDT_NS.fitClassStep svd rcos rsin piQ nd Xr Y st c with
    | error e =>
      rw [hstep] at h
      exact absurd h (by simp [Bind.bind, Except.bind])
    | ok mid =>
      rw [hstep] at h
      have hmid : List.foldlM (RSCDT_NS.fitClassStep svd rcos rsin piQ nd Xr Y) mid t =
          Except.ok st' := by simpa [Bind.bind, Except.bind] using h
      obtain ⟨h1, h2, h3, h4, hsub⟩ := fitClassStep_ok svd rcos rsin piQ nd Xr Y st c mid hstep
      obtain ⟨g1, g2, g3, g4, bs, gsub, glen⟩ := ih mid st' hmid
      refine ⟨by rw [g1, h1], by rw [g2, h2], by rw [g3, h3], le_trans h4 g4, ?_⟩
      refine ⟨[(svd (RSCDT_NS.classFlat rcos rsin piQ nd st.thetas Xr Y c)).2.take
          (RSCDT_NS.classFlat rcos rsin piQ nd st.thetas Xr Y c).length] ++ bs, ?_, ?_⟩
      · rw [gsub, hsub, List.append_assoc]
      · simp [glen]

theorem range_getD (n i : ℕ) (h : i < n) : (List.range n).getD i 0 = i := by
  rw [List.getD_eq_getElem _ _ (by simpa using h), List.getElem_range]

theorem predictCore_getD_argmin (nc ls : ℕ) (subs : List Mat) (X : List Vec) (i : ℕ)
    (hi : i < X.length) :
    (predictCore nc ls subs X).getD i 0 =
      argminIdx (((List.range nc).map (fun k => X.map (fun x => classResSq ls subs k x))).map
        (fun row => row.getD i 0)) := by
  simp only [predictCore]
  rw [getD_map_lt _ _ i (by simpa using hi) 0 0, range_getD _ _ hi]

theorem stack_col_getD (nc ls : ℕ) (subs : List Mat) (X : List Vec) (i : ℕ)
    (hi : i < X.length) (k : ℕ) (hk : k < nc) :
    (((List.range nc).map (fun k => X.map (fun x => classResSq ls subs k x))).map
        (fun row => row.getD i 0)).getD k 0 =
      classResSq ls subs k (X.getD i []) := by
  rw [getD_map_lt _ _ k (by simpa using hk) 0 []]
  rw [getD_map_lt _ _ k (by simpa using hk) [] 0]
  rw [range_getD _ _ hk]
  rw [getD_map_lt _ _ i hi 0 []]

theorem predictCore_spec (nc ls : ℕ) (subs : List Mat) (X : List Vec) (i : ℕ)
    (hi : i < X.length) (hnc : 0 < nc) :
    (predictCore nc ls subs X).getD i 0 < nc ∧
      (∀ k, k < nc →
        classResSq ls subs ((predictCore nc ls subs X).getD i 0) (X.getD i []) ≤
          classResSq ls subs k (X.getD i [])) ∧
      (∀ k, k < (predictCore nc ls subs X).getD i 0 →
        classResSq ls subs ((predictCore nc ls subs X).getD i 0) (X.getD i []) <
          classResSq ls subs k (X.getD i [])) := by
  have hcol := predictCore_getD_argmin nc ls subs X i hi
  set col := ((List.range nc).map (fun k => X.map (fun x => classResSq ls subs k x))).map
    (fun row => row.getD i 0) with hcoldef
  have hlen : col.length = nc := by simp [hcoldef]
  have hne : col ≠ [] := by
    intro he
    rw [he] at hlen
    simp at hlen
    omega
  obtain ⟨ha1, ha2, ha3⟩ := argminIdx_spec col hne
  have hplt : (predictCore nc ls subs X).getD i 0 < nc := by
    rw [hcol, ← hlen]; exact ha1
  refine ⟨hplt, ?_, ?_⟩
  · intro k hk
    have hgetp : classResSq ls subs ((predictCore nc ls subs X).getD i 0) (X.getD i []) =
        listMin col := by
      rw [← ha2, hcol, stack_col_getD nc ls subs X i hi _ (by rw [← hcol]; exact hplt)]
    have hmemk : col.getD k 0 ∈ col := by
      rw [List.getD_eq_getElem _ _ (by rw [hlen]; exact hk)]
      exact List.getElem_mem _
    have := listMin_le_mem col _ hmemk
    rw [hgetp]
    calc listMin col ≤ col.getD k 0 := this
    _ = classResSq ls subs k (X.getD i []) := stack_col_getD nc ls subs X i hi k hk
  · intro k hk
    have hgetp : classResSq ls subs ((predictCore nc ls subs X).getD i 0) (X.getD i []) =
        listMin col := by
      rw [← ha2, hcol, stack_col_getD nc ls subs X i hi _ (by rw [← hcol]; exact hplt)]
    have hklt : k < nc := lt_trans hk hplt
    have := ha3 k (by rw [← hcol]; exact hk)
    rw [hgetp]
    calc listMin col < col.getD k 0 := this
    _ = classResSq ls subs k (X.getD i []) := stack_col_getD nc ls subs X i hi k hklt

/- Claim theorems. -/

/-- C3: for every non-empty batch and any positive worker count, the
unsigned parallel batch transform returns exactly the stack obtained by
applying the single-image transform sequentially to every image in input
order, independently of how the batch was split into chunks; and the
signed batch transform is that sequential application by definition. -/
theorem batch_transform_eq_sequential (F : TransformArgs → Mat) (self : NSState)
    (cpuCount : ℕ) (X : List Mat) (hcpu : 1 ≤ cpuCount) (hX : X ≠ []) :
    MY_RDCT_NS.rcdt_parallel F self cpuCount X =
      Except.ok (X.map (fun I => MY_RDCT_NS.fun_rcdt_single F self (matAddScalar I npEps))) ∧
    (∀ (G : TransformArgs → Mat) (st : NSState) (Z : List Mat),
      RSCDT_NS.rscdt_parallel G st Z =
        Z.map (fun I => RSCDT_NS.fun_rscdt_single G st (matAddScalar I npEps))) := by
  constructor
  · have hlen : 1 ≤ X.length := List.length_pos.mpr hX
    have hncpu : MY_RDCT_NS.nCpu cpuCount X.length ≠ 0 := by
      rw [MY_RDCT_NS.nCpu]; omega
    have hone : 1 ≤ MY_RDCT_NS.nCpu cpuCount X.length := Nat.one_le_iff_ne_zero.mpr hncpu
    simp only [MY_RDCT_NS.rcdt_parallel]
    rw [if_neg hncpu]
    congr 1
    calc ((arraySplit X (MY_RDCT_NS.nCpu cpuCount X.length)).map
            (MY_RDCT_NS.fun_rcdt_batch F self)).flatten
        = ((arraySplit X (MY_RDCT_NS.nCpu cpuCount X.length)).map
            (List.map (fun I => MY_RDCT_NS.fun_rcdt_single F self (matAddScalar I npEps)))).flatten := rfl
    _ = (arraySplit X (MY_RDCT_NS.nCpu cpuCount X.length)).flatten.map
          (fun I => MY_RDCT_NS.fun_rcdt_single F self (matAddScalar I npEps)) :=
        (List.map_flatten _ _).symm
    _ = X.map (fun I => MY_RDCT_NS.fun_rcdt_single F self (matAddScalar I npEps)) := by
        rw [arraySplit_flatten _ _ hone]
  · intro G st Z
    rfl

/-- C3 witness: a concrete two-image batch with two workers. -/
theorem batch_transform_eq_sequential_witness :
    (1 ≤ 2 ∧ ([[[1]], [[2]]] : List Mat) ≠ []) ∧
    (MY_RDCT_NS.rcdt_parallel (fun a => a.image) (NSState.init 1 [0] false) 2 [[[1]], [[2]]] =
      Except.ok (([[[1]], [[2]]] : List Mat).map
        (fun I => MY_RDCT_NS.fun_rcdt_single (fun a => a.image) (NSState.init 1 [0] false)
          (matAddScalar I npEps))) ∧
    (∀ (G : TransformArgs → Mat) (st : NSState) (Z : List Mat),
      RSCDT_NS.rscdt_parallel G st Z =
        Z.map (fun I => RSCDT_NS.fun_rscdt_single G st (matAddScalar I npEps)))) :=
  ⟨⟨by decide, by decide⟩,
    batch_transform_eq_sequential (fun a => a.image) (NSState.init 1 [0] false) 2
      [[[1]], [[2]]] (by decide) (by decide)⟩

/-- C5 as stated is false: the unsigned variant raises on the empty batch.
Counterexample: rcdt_parallel on zero images computes n_cpu = min(cpu_count, 0) = 0
and numpy array_split with 0 sections raises a ValueError, instead of
returning an empty result. -/
theorem rcdt_parallel_empty_raises :
    MY_RDCT_NS.rcdt_parallel (fun _ => [[1]]) (NSState.init 2 [0, 4] false) 4 [] =
      Except.error "ValueError: number sections must be larger than 0." := by
  rfl

/-- C5 amended: the signed variant returns an empty result on an empty
batch without raising; the unsigned variant raises on an empty batch
(array_split called with zero sections); and the unsigned variant never
uses more workers than images, the signed one uses none at all. -/
theorem batch_transform_empty_and_worker_bound :
    (∀ (F : TransformArgs → Mat) (st : NSState), RSCDT_NS.rscdt_parallel F st [] = []) ∧
    (∀ (F : TransformArgs → Mat) (st : NSState) (c : ℕ),
      MY_RDCT_NS.rcdt_parallel F st c [] =
        Except.error "ValueError: number sections must be larger than 0.") ∧
    (∀ (c : ℕ) (X : List Mat), MY_RDCT_NS.nCpu c X.length ≤ X.length) := by
  refine ⟨fun F st => rfl, ?_, ?_⟩
  · intro F st c
    simp [MY_RDCT_NS.rcdt_parallel, MY_RDCT_NS.nCpu]
  · intro c X
    rw [MY_RDCT_NS.nCpu]
    omega

/-- C4 fails in the signed variant: fun_rscdt_single constructs the
transform with the library-default angles (thetas argument absent) and
passes rm_edge = False literally, ignoring the thetas and rm_edge stored
at construction, as exhibited on a classifier configured with
thetas = [10, 20] and rm_edge = True; the unsigned variant does pass
self.thetas and self.rm_edge, and every transform invocation of the
signed variant goes through these arguments. -/
theorem rscdt_single_ignores_configuration :
    ((RSCDT_NS.fun_rscdt_single_args (NSState.init 2 [10, 20] true) [[5]]).rmEdge = false ∧
      (NSState.init 2 [10, 20] true).rm_edge = true ∧
      (RSCDT_NS.fun_rscdt_single_args (NSState.init 2 [10, 20] true) [[5]]).thetas = none ∧
      (NSState.init 2 [10, 20] true).thetas = [10, 20]) ∧
    (∀ (st st' : NSState) (I : Mat),
      RSCDT_NS.fun_rscdt_single_args st I = RSCDT_NS.fun_rscdt_single_args st' I) ∧
    (∀ (st : NSState) (I : Mat),
      (MY_RDCT_NS.fun_rcdt_single_args st I).thetas = some st.thetas ∧
      (MY_RDCT_NS.fun_rcdt_single_args st I).rmEdge = st.rm_edge) ∧
    (∀ (F : TransformArgs → Mat) (st : NSState) (I : Mat),
      RSCDT_NS.fun_rscdt_single F st I = F (RSCDT_NS.fun_rscdt_single_args st I)) :=
  ⟨⟨rfl, rfl, rfl, rfl⟩, fun _ _ _ => rfl, fun _ _ => ⟨rfl, rfl⟩, fun _ _ _ => rfl⟩

/-- C8: the unsigned single-image transform passes the ones template and
the image each divided by its own sum (so every template entry becomes
one over the pixel count and every image entry is divided by the image
total), while the signed single-image transform passes the image
unchanged together with a uniform all-ones template. -/
theorem single_transform_normalization (st : NSState) (I : Mat) (i j : ℕ)
    (hi : i < I.length) (hj : j < (I.getD i []).length) :
    ((((MY_RDCT_NS.fun_rcdt_single_args st I).template.getD i []).getD j 0 =
        1 / (entryCount I : ℚ)) ∧
      (((MY_RDCT_NS.fun_rcdt_single_args st I).image.getD i []).getD j 0 =
        (I.getD i []).getD j 0 / matSum I)) ∧
    ((RSCDT_NS.fun_rscdt_single_args st I).image = I ∧
      ((RSCDT_NS.fun_rscdt_single_args st I).template.getD i []).getD j 0 = 1) := by
  have hones_len : i < (onesLike I).length := by
    rw [onesLike, List.length_map]; exact hi
  have hones_row : (onesLike I).getD i [] = (I.getD i []).map (fun _ => (1 : ℚ)) := by
    rw [onesLike, getD_map_lt _ _ i hi [] []]
  refine ⟨⟨?_, ?_⟩, rfl, ?_⟩
  · show (((matScalarDiv (onesLike I) (matSum (onesLike I))).getD i []).getD j 0 =
      1 / (entryCount I : ℚ))
    rw [matScalarDiv, getD_map_lt _ _ i hones_len [] [], hones_row,
      getD_map_lt _ _ j (by rw [List.length_map]; exact hj) 0 0,
      getD_map_lt _ _ j hj 0 0, matSum_onesLike, one_div]
  · show (((matScalarDiv I (matSum I)).getD i []).getD j 0 =
      (I.getD i []).getD j 0 / matSum I)
    rw [matScalarDiv, getD_map_lt _ _ i hi [] [], getD_map_lt _ _ j hj 0 0]
  · show (((onesLike I).getD i []).getD j 0 = (1 : ℚ))
    rw [hones_row, getD_map_lt _ _ j hj 0 0]

/-- C8 witness: a concrete 1 by 2 image. -/
theorem single_transform_normalization_witness :
    (0 < ([[(2 : ℚ), 3]] : Mat).length ∧
      1 < (([[(2 : ℚ), 3]] : Mat).getD 0 []).length) ∧
    (((((MY_RDCT_NS.fun_rcdt_single_args (NSState.init 1 [0] false) [[(2 : ℚ), 3]]).template.getD
          0 []).getD 1 0 =
        1 / (entryCount [[(2 : ℚ), 3]] : ℚ)) ∧
      ((((MY_RDCT_NS.fun_rcdt_single_args (NSState.init 1 [0] false) [[(2 : ℚ), 3]]).image.getD
          0 []).getD 1 0 =
        (([[(2 : ℚ), 3]] : Mat).getD 0 []).getD 1 0 / matSum [[(2 : ℚ), 3]]))) ∧
    (((RSCDT_NS.fun_rscdt_single_args (NSState.init 1 [0] false) [[(2 : ℚ), 3]]).image =
        [[(2 : ℚ), 3]]) ∧
      (((RSCDT_NS.fun_rscdt_single_args (NSState.init 1 [0] false)
          [[(2 : ℚ), 3]]).template.getD 0 []).getD 1 0 = 1))) :=
  ⟨⟨by decide, by decide⟩,
    single_transform_normalization (NSState.init 1 [0] false) [[(2 : ℚ), 3]] 0 1
      (by decide) (by decide)⟩

/-- C9: on a class coefficient array of shape (n, P, A) the augmenter
returns the input followed by two extra samples, each the P-fold
repetition of the vector of cosines, respectively sines, of the
configured angles converted from degrees to radians; the output has n+2
samples, its first n samples are the input unchanged, the appended
samples have shape (P, A), and the signed variant computes the same
function. -/
theorem add_trans_samples_shape (rcos rsin : ℚ → ℚ) (piQ : ℚ) (thetas : List ℚ)
    (features : List Mat) (n P A : ℕ)
    (hn : features.length = n) (hP : (features.headD []).length = P)
    (hA : thetas.length = A) :
    MY_RDCT_NS.add_trans_samples rcos rsin piQ thetas features =
      features ++ [List.replicate P (thetas.map (fun t => rcos (t * piQ / 180))),
        List.replicate P (thetas.map (fun t => rsin (t * piQ / 180)))] ∧
    (MY_RDCT_NS.add_trans_samples rcos rsin piQ thetas features).length = n + 2 ∧
    (MY_RDCT_NS.add_trans_samples rcos rsin piQ thetas features).take n = features ∧
    (∀ M ∈ (MY_RDCT_NS.add_trans_samples rcos rsin piQ thetas features).drop n,
      M.length = P ∧ ∀ row ∈ M, row.length = A) ∧
    RSCDT_NS.add_trans_samples rcos rsin piQ thetas features =
      MY_RDCT_NS.add_trans_samples rcos rsin piQ thetas features := by
  have hstruct : MY_RDCT_NS.add_trans_samples rcos rsin piQ thetas features =
      features ++ [List.replicate P (thetas.map (fun t => rcos (t * piQ / 180))),
        List.replicate P (thetas.map (fun t => rsin (t * piQ / 180)))] := by
    rw [MY_RDCT_NS.add_trans_samples, hP]
  refine ⟨hstruct, ?_, ?_, ?_, rfl⟩
  · rw [hstruct, List.length_append, hn]
    rfl
  · rw [hstruct, ← hn, List.take_left]
  · intro M hM
    rw [hstruct, ← hn, List.drop_left] at hM
    have hshape : M = List.replicate P (thetas.map (fun t => rcos (t * piQ / 180))) ∨
        M = List.replicate P (thetas.map (fun t => rsin (t * piQ / 180))) := by
      rcases List.mem_cons.mp hM with h | h
      · exact Or.inl h
      · rcases List.mem_cons.mp h with h2 | h2
        · exact Or.inr h2
        · cases h2
    rcases hshape with h | h
    all_goals {
      subst h
      refine ⟨List.length_replicate _ _, ?_⟩
      intro row hrow
      have := List.eq_of_mem_replicate hrow
      subst this
      rw [List.length_map, hA]
    }

/-- C9 witness: one sample of shape (2, 2) with two angles. -/
theorem add_trans_samples_shape_witness :
    (([[[5, 6], [7, 8]]] : List Mat).length = 1 ∧
      (([[[5, 6], [7, 8]]] : List Mat).headD []).length = 2 ∧
      ([30, 60] : List ℚ).length = 2) ∧
    (MY_RDCT_NS.add_trans_samples id id 180 [30, 60] [[[5, 6], [7, 8]]] =
      [[[5, 6], [7, 8]]] ++ [List.replicate 2 (([30, 60] : List ℚ).map (fun t => id (t * 180 / 180))),
        List.replicate 2 (([30, 60] : List ℚ).map (fun t => id (t * 180 / 180)))] ∧
    (MY_RDCT_NS.add_trans_samples id id 180 [30, 60] [[[5, 6], [7, 8]]]).length = 1 + 2 ∧
    (MY_RDCT_NS.add_trans_samples id id 180 [30, 60] [[[5, 6], [7, 8]]]).take 1 =
      [[[5, 6], [7, 8]]] ∧
    (∀ M ∈ (MY_RDCT_NS.add_trans_samples id id 180 [30, 60] [[[5, 6], [7, 8]]]).drop 1,
      M.length = 2 ∧ ∀ row ∈ M, row.length = 2) ∧
    RSCDT_NS.add_trans_samples id id 180 [30, 60] [[[5, 6], [7, 8]]] =
      MY_RDCT_NS.add_trans_samples id id 180 [30, 60] [[[5, 6], [7, 8]]]) :=
  ⟨⟨by decide, by decide, by decide⟩,
    add_trans_samples_shape id id 180 [30, 60] [[[5, 6], [7, 8]]] 1 2 2
      (by decide) (by decide) (by decide)⟩

/-- C7: for a spectrum of non-negative singular values with at least one
strictly positive entry, the effective rank computed by fit (first index
of the cumulative sum normalized by its maximum reaching 0.99, plus one)
is the smallest count r of leading singular values whose energy fraction,
measured against the total sum, reaches 0.99: normalizing by the maximum
of the cumulative sum coincides with normalizing by the total because the
values are non-negative. -/
theorem maxBasis_least_energy_rank (s : List ℚ) (h0 : ∀ x ∈ s, 0 ≤ x)
    (h1 : ∃ x ∈ s, 0 < x) :
    ∃ r, RSCDT_NS.maxBasis s = some r ∧ 1 ≤ r ∧ r ≤ s.length ∧
      (99 : ℚ) / 100 ≤ (s.take r).sum / s.sum ∧
      ∀ m, 1 ≤ m → m < r → (s.take m).sum / s.sum < (99 : ℚ) / 100 := by
  obtain ⟨x0, hx0m, hx0⟩ := h1
  have hne : s ≠ [] := by
    intro he
    rw [he] at hx0m
    cases hx0m
  have htot : 0 < s.sum := lt_of_lt_of_le hx0 (mem_le_sum_of_nonneg s h0 x0 hx0m)
  have hmax : npMax (cumsum s) = some s.sum := npMax_cumsum s hne h0
  have hlen : 0 < s.length := List.length_pos.mpr hne
  have hlast_idx : s.length - 1 < (cumsum s).length := by
    rw [cumsum_length]; omega
  have hlast_val : ((cumsum s).map (fun x => x / s.sum)).getD (s.length - 1) 0 = 1 := by
    rw [getD_map_lt _ _ _ hlast_idx 0 0,
      cumsum_getD s _ (by omega) 0,
      show s.length - 1 + 1 = s.length by omega,
      List.take_of_length_le (le_refl _),
      div_self (ne_of_gt htot)]
  have hfound : ∃ i, firstIdxWhere (fun x => (99 : ℚ) / 100 ≤ x)
      ((cumsum s).map (fun x => x / s.sum)) = some i := by
    refine firstIdxWhere_isSome _ _ (((cumsum s).map (fun x => x / s.sum)).getD (s.length - 1) 0) ?_ ?_
    · rw [List.getD_eq_getElem _ _ (by rw [List.length_map]; exact hlast_idx)]
      exact List.getElem_mem _
    · rw [hlast_val]
      norm_num
  obtain ⟨i, hi⟩ := hfound
  obtain ⟨hilen, hip, himin⟩ := firstIdxWhere_eq_some _ _ i hi
  rw [List.length_map, cumsum_length] at hilen
  refine ⟨i + 1, ?_, by omega, by omega, ?_, ?_⟩
  · rw [RSCDT_NS.maxBasis]
    simp only [hmax]
    rw [hi]
    rfl
  · rw [getD_map_lt _ _ i (by rw [cumsum_length]; exact hilen) 0 0,
      cumsum_getD s i hilen 0] at hip
    exact hip
  · intro m hm1 hmr
    have hj : m - 1 < i := by omega
    have hjlen : m - 1 < s.length := by omega
    have := himin (m - 1) hj
    rw [getD_map_lt _ _ (m - 1) (by rw [cumsum_length]; exact hjlen) 0 0,
      cumsum_getD s (m - 1) hjlen 0,
      show m - 1 + 1 = m by omega] at this
    exact lt_of_not_le this

/-- C7 witness: the spectrum [99, 1], whose effective rank is 1. -/
theorem maxBasis_least_energy_rank_witness :
    ((∀ x ∈ ([99, 1] : List ℚ), 0 ≤ x) ∧ (∃ x ∈ ([99, 1] : List ℚ), 0 < x)) ∧
    (∃ r, RSCDT_NS.maxBasis [99, 1] = some r ∧ 1 ≤ r ∧ r ≤ ([99, 1] : List ℚ).length ∧
      (99 : ℚ) / 100 ≤ (([99, 1] : List ℚ).take r).sum / ([99, 1] : List ℚ).sum ∧
      ∀ m, 1 ≤ m → m < r →
        (([99, 1] : List ℚ).take m).sum / ([99, 1] : List ℚ).sum < (99 : ℚ) / 100) :=
  ⟨⟨by decide, by decide⟩,
    maxBasis_least_energy_rank [99, 1] (by decide) (by decide)⟩

/-- C2: on any flattened transformed test matrix, the prediction for
sample i is the least class index attaining the minimum Euclidean
residual norm of the projection onto the basis sliced to its first
len_subspace rows (ties go to the smaller class index); and both
variants of predict are exactly this computation composed with their
batch transform and row-major flattening. -/
theorem predict_least_argmin_residual (nc ls : ℕ) (subs : List Mat) (X : List Vec)
    (i : ℕ) (hi : i < X.length) (hnc : 0 < nc) :
    ((predictCore nc ls subs X).getD i 0 < nc ∧
      (∀ k, k < nc →
        residualNorm ls subs ((predictCore nc ls subs X).getD i 0) (X.getD i []) ≤
          residualNorm ls subs k (X.getD i [])) ∧
      (∀ k, k < (predictCore nc ls subs X).getD i 0 →
        residualNorm ls subs ((predictCore nc ls subs X).getD i 0) (X.getD i []) <
          residualNorm ls subs k (X.getD i []))) ∧
    (∀ (F : TransformArgs → Mat) (st : NSState) (Xt : List Mat),
      RSCDT_NS.predict F st Xt =
        predictCore st.num_classes st.len_subspace st.subspaces
          ((RSCDT_NS.rscdt_parallel F st Xt).map List.flatten)) ∧
    (∀ (F : TransformArgs → Mat) (st : NSState) (c : ℕ) (Xt : List Mat),
      MY_RDCT_NS.predict F st c Xt =
        Except.map
          (fun Xr => predictCore st.num_classes st.len_subspace st.subspaces
            (Xr.map List.flatten))
          (MY_RDCT_NS.rcdt_parallel F st c Xt)) := by
  obtain ⟨h1, h2, h3⟩ := predictCore_spec nc ls subs X i hi hnc
  refine ⟨⟨h1, ?_, ?_⟩, fun F st Xt => rfl, fun F st c Xt => rfl⟩
  · intro k hk
    rw [residualNorm, residualNorm]
    exact Real.sqrt_le_sqrt (by exact_mod_cast h2 k hk)
  · intro k hk
    rw [residualNorm, residualNorm]
    refine Real.sqrt_lt_sqrt ?_ (by exact_mod_cast h3 k hk)
    exact_mod_cast classResSq_nonneg ls subs _ _

/-- C2 witness: one sample, one class with an empty basis slice. -/
theorem predict_least_argmin_residual_witness :
    (0 < ([[(0 : ℚ)]] : List Vec).length ∧ (0 : ℕ) < 1) ∧
    (((predictCore 1 0 [] [[(0 : ℚ)]]).getD 0 0 < 1 ∧
      (∀ k, k < 1 →
        residualNorm 0 [] ((predictCore 1 0 [] [[(0 : ℚ)]]).getD 0 0)
            (([[(0 : ℚ)]] : List Vec).getD 0 []) ≤
          residualNorm 0 [] k (([[(0 : ℚ)]] : List Vec).getD 0 [])) ∧
      (∀ k, k < (predictCore 1 0 [] [[(0 : ℚ)]]).getD 0 0 →
        residualNorm 0 [] ((predictCore 1 0 [] [[(0 : ℚ)]]).getD 0 0)
            (([[(0 : ℚ)]] : List Vec).getD 0 []) <
          residualNorm 0 [] k (([[(0 : ℚ)]] : List Vec).getD 0 []))) ∧
    (∀ (F : TransformArgs → Mat) (st : NSState) (Xt : List Mat),
      RSCDT_NS.predict F st Xt =
        predictCore st.num_classes st.len_subspace st.subspaces
          ((RSCDT_NS.rscdt_parallel F st Xt).map List.flatten)) ∧
    (∀ (F : TransformArgs → Mat) (st : NSState) (c : ℕ) (Xt : List Mat),
      MY_RDCT_NS.predict F st c Xt =
        Except.map
          (fun Xr => predictCore st.num_classes st.len_subspace st.subspaces
            (Xr.map List.flatten))
          (MY_RDCT_NS.rcdt_parallel F st c Xt))) :=
  ⟨⟨by decide, by decide⟩,
    predict_least_argmin_residual 1 0 [] [[(0 : ℚ)]] 0 (by decide) (by decide)⟩

/-- C6 is false as stated: on a class whose flattened matrix has 3 rows
and 1 column, the reduced SVD gives vh a single row, and the stored
basis vh[:3] has 1 row, not 3.  The transform oracle recovers each 1 by 1
image (undoing the epsilon offset) and the svd oracle returns the reduced
SVD of [[1], [0], [0]], namely singular values [1] and vh = [[1]]. -/
theorem fit_basis_rows_clamped :
    RSCDT_NS.fit (fun a => [[(a.image.getD 0 []).getD 0 0 - npEps]]) (fun _ => ([1], [[1]]))
        id id 1 (NSState.init 1 [0] false) [[[1]], [[0]], [[0]]] [0, 0, 0] true =
      Except.ok ⟨1, [0], false, [[[1]]], 1⟩ ∧
    RSCDT_NS.classFlat id id 1 true [0]
      (RSCDT_NS.rscdt_parallel (fun a => [[(a.image.getD 0 []).getD 0 0 - npEps]])
        (NSState.init 1 [0] false) [[[1]], [[0]], [[0]]]) [0, 0, 0] 0 = [[1], [0], [0]] ∧
    ([[1], [0], [0]] : Mat).length = 3 ∧
    ((⟨1, [0], false, [[[1]]], 1⟩ : NSState).subspaces.getD 0 []).length = 1 ∧
    ¬ ((1 : ℕ) = 3) := by
  refine ⟨?_, ?_, by decide, by decide, by decide⟩
  · norm_num [RSCDT_NS.fit, RSCDT_NS.fitClassStep, RSCDT_NS.classFlat, RSCDT_NS.rscdt_parallel,
      RSCDT_NS.fun_rscdt_batch, RSCDT_NS.fun_rscdt_single, RSCDT_NS.fun_rscdt_single_args,
      RSCDT_NS.maxBasis, selectClass, matAddScalar, npEps, cumsum,
      npMax, firstIdxWhere, List.foldlM, List.range_succ, NSState.init, Except.bind,
      List.filterMap_cons, List.isEmpty_iff, List.take]
  · norm_num [RSCDT_NS.classFlat, RSCDT_NS.rscdt_parallel,
      RSCDT_NS.fun_rscdt_batch, RSCDT_NS.fun_rscdt_single, RSCDT_NS.fun_rscdt_single_args,
      selectClass, matAddScalar, npEps, NSState.init, List.filterMap_cons]

/-- C6 amended: the basis stored for a class is vh sliced to the first n
rows where n is the row count of the flattened class matrix; since the
reduced SVD returns vh with min(n, F) rows (F the feature count), the
stored basis is the ENTIRE right-singular-vector matrix with min(n, F)
rows — equal to n exactly when n does not exceed F — and is never
truncated to the effective rank of the class. -/
theorem fit_stores_entire_vh (svd : Mat → List ℚ × Mat) (rcos rsin : ℚ → ℚ) (piQ : ℚ)
    (nd : Bool) (Xr : List Mat) (Y : List ℕ) (st : NSState) (c : ℕ) (st' : NSState)
    (h : RSCDT_NS.fitClassStep svd rcos rsin piQ nd Xr Y st c = Except.ok st') :
    st'.subspaces = st.subspaces ++
      [(svd (RSCDT_NS.classFlat rcos rsin piQ nd st.thetas Xr Y c)).2.take
        (RSCDT_NS.classFlat rcos rsin piQ nd st.thetas Xr Y c).length] ∧
    (∀ Fdim : ℕ,
      (svd (RSCDT_NS.classFlat rcos rsin piQ nd st.thetas Xr Y c)).2.length =
        min (RSCDT_NS.classFlat rcos rsin piQ nd st.thetas Xr Y c).length Fdim →
      ((svd (RSCDT_NS.classFlat rcos rsin piQ nd st.thetas Xr Y c)).2.take
          (RSCDT_NS.classFlat rcos rsin piQ nd st.thetas Xr Y c).length).length =
        min (RSCDT_NS.classFlat rcos rsin piQ nd st.thetas Xr Y c).length Fdim ∧
      (svd (RSCDT_NS.classFlat rcos rsin piQ nd st.thetas Xr Y c)).2.take
          (RSCDT_NS.classFlat rcos rsin piQ nd st.thetas Xr Y c).length =
        (svd (RSCDT_NS.classFlat rcos rsin piQ nd st.thetas Xr Y c)).2) := by
  obtain ⟨-, -, -, -, hsub⟩ := fitClassStep_ok svd rcos rsin piQ nd Xr Y st c st' h
  refine ⟨hsub, ?_⟩
  intro Fdim hF
  constructor
  · rw [List.length_take, hF, ← min_assoc, min_self]
  · refine List.take_of_length_le ?_
    rw [hF]
    exact min_le_left _ _

/-- C6 amended witness: the 3 samples by 1 feature class, where the
stored basis is the entire one-row vh. -/
theorem fit_stores_entire_vh_witness :
    RSCDT_NS.fitClassStep (fun _ => ([1], [[1]])) id id 1 true [[[1]], [[0]], [[0]]]
        [0, 0, 0] (NSState.init 1 [0] false) 0 = Except.ok ⟨1, [0], false, [[[1]]], 1⟩ ∧
    (⟨1, [0], false, [[[1]]], 1⟩ : NSState).subspaces =
      (NSState.init 1 [0] false).subspaces ++ [([[1]] : Mat).take 3] := by
  have h : RSCDT_NS.fitClassStep (fun _ => ([1], [[1]])) id id 1 true [[[1]], [[0]], [[0]]]
      [0, 0, 0] (NSState.init 1 [0] false) 0 = Except.ok ⟨1, [0], false, [[[1]]], 1⟩ := by
    norm_num [RSCDT_NS.fitClassStep, RSCDT_NS.classFlat, RSCDT_NS.maxBasis, selectClass,
      npEps, cumsum, npMax, firstIdxWhere, NSState.init,
      List.filterMap_cons, List.isEmpty_iff, List.take]
  refine ⟨h, ?_⟩
  exact (fit_stores_entire_vh (fun _ => ([1], [[1]])) id id 1 true [[[1]], [[0]], [[0]]]
    [0, 0, 0] (NSState.init 1 [0] false) 0 ⟨1, [0], false, [[[1]]], 1⟩ h).1

theorem classResSq_congr (ls : ℕ) (s1 s2 : List Mat) (k : ℕ) (x : Vec)
    (h : s1.getD k [] = s2.getD k []) :
    classResSq ls s1 k x = classResSq ls s2 k x := by
  simp only [classResSq, h]

theorem predictCore_agree (nc ls : ℕ) (s1 s2 : List Mat) (X : List Vec)
    (h : ∀ k, k < nc → s1.getD k [] = s2.getD k []) :
    predictCore nc ls s1 X = predictCore nc ls s2 X := by
  have hD : (List.range nc).map (fun k => X.map (fun x => classResSq ls s1 k x)) =
      (List.range nc).map (fun k => X.map (fun x => classResSq ls s2 k x)) := by
    refine List.map_congr_left ?_
    intro k hk
    refine List.map_congr_left ?_
    intro x _
    exact classResSq_congr ls s1 s2 k x (h k (List.mem_range.mp hk))
  simp only [predictCore, hD]

/-- C10: fit never clears stored state.  Starting from a freshly
constructed classifier, a successful fit leaves num_classes bases and a
second successful fit leaves 2 * num_classes bases, with the first fit
results sitting unchanged in front; len_subspace never decreases; and
since predict only reads the bases at indices 0 to num_classes-1, it
computes exactly the same answer from the doubly fitted state as it
would from the bases appended by the first fit call. -/
theorem fit_accumulates_state (F : TransformArgs → Mat) (svd : Mat → List ℚ × Mat)
    (rcos rsin : ℚ → ℚ) (piQ : ℚ) (nc : ℕ) (th : List ℚ) (rm : Bool)
    (X1 : List Mat) (Y1 : List ℕ) (nd1 : Bool) (X2 : List Mat) (Y2 : List ℕ) (nd2 : Bool)
    (st1 st2 : NSState)
    (h1 : RSCDT_NS.fit F svd rcos rsin piQ (NSState.init nc th rm) X1 Y1 nd1 = Except.ok st1)
    (h2 : RSCDT_NS.fit F svd rcos rsin piQ st1 X2 Y2 nd2 = Except.ok st2) :
    st1.num_classes = nc ∧ st2.num_classes = nc ∧
    st1.subspaces.length = nc ∧ st2.subspaces.length = 2 * nc ∧
    st1.len_subspace ≤ st2.len_subspace ∧
    st2.subspaces.take nc = st1.subspaces ∧
    (∀ X : List Vec,
      predictCore st2.num_classes st2.len_subspace st2.subspaces X =
        predictCore st2.num_classes st2.len_subspace st1.subspaces X) := by
  rw [RSCDT_NS.fit] at h1 h2
  obtain ⟨a1, -, -, -, bs1, asub1, alen1⟩ :=
    fit_foldlM_ok svd rcos rsin piQ nd1 _ Y1 _ _ _ h1
  obtain ⟨a2, -, -, a4, bs2, asub2, alen2⟩ :=
    fit_foldlM_ok svd rcos rsin piQ nd2 _ Y2 _ _ _ h2
  have hnc1 : st1.num_classes = nc := by rw [a1]; rfl
  have hnc2 : st2.num_classes = nc := by rw [a2, hnc1]
  have hsub1 : st1.subspaces = bs1 := by simpa [NSState.init] using asub1
  have hlen1 : st1.subspaces.length = nc := by
    rw [hsub1, alen1, List.length_range]; rfl
  have hlen2 : st2.subspaces.length = 2 * nc := by
    rw [asub2, List.length_append, hlen1, alen2, List.length_range, hnc1]
    omega
  have htake : st2.subspaces.take nc = st1.subspaces := by
    rw [asub2, ← hlen1, List.take_left]
  refine ⟨hnc1, hnc2, hlen1, hlen2, a4, htake, ?_⟩
  intro X
  refine predictCore_agree _ _ _ _ _ ?_
  intro k hk
  rw [asub2]
  exact List.getD_append _ _ _ k (by rw [hlen1, ← hnc2]; exact hk)

/-- C10 witness: two consecutive successful fits of a one-class signed
classifier on a single 1 by 1 image. -/
theorem fit_accumulates_state_witness :
    RSCDT_NS.fit (fun _ => [[1]]) (fun _ => ([1], [[1]])) id id 1 (NSState.init 1 [0] false)
        [[[1]]] [0] true = Except.ok ⟨1, [0], false, [[[1]]], 1⟩ ∧
    RSCDT_NS.fit (fun _ => [[1]]) (fun _ => ([1], [[1]])) id id 1 ⟨1, [0], false, [[[1]]], 1⟩
        [[[1]]] [0] true = Except.ok ⟨1, [0], false, [[[1]], [[1]]], 1⟩ ∧
    (⟨1, [0], false, [[[1]], [[1]]], 1⟩ : NSState).subspaces.length = 2 * 1 ∧
    (⟨1, [0], false, [[[1]], [[1]]], 1⟩ : NSState).subspaces.take 1 =
      (⟨1, [0], false, [[[1]]], 1⟩ : NSState).subspaces := by
  have h1 : RSCDT_NS.fit (fun _ => [[1]]) (fun _ => ([1], [[1]])) id id 1
      (NSState.init 1 [0] false) [[[1]]] [0] true = Except.ok ⟨1, [0], false, [[[1]]], 1⟩ := by
    norm_num [RSCDT_NS.fit, RSCDT_NS.fitClassStep, RSCDT_NS.classFlat, RSCDT_NS.rscdt_parallel,
      RSCDT_NS.fun_rscdt_batch, RSCDT_NS.fun_rscdt_single, RSCDT_NS.fun_rscdt_single_args,
      RSCDT_NS.maxBasis, selectClass, matAddScalar, npEps, cumsum,
      npMax, firstIdxWhere, List.foldlM, List.range_succ, NSState.init, Except.bind,
      List.filterMap_cons, List.isEmpty_iff, List.take]
  have h2 : RSCDT_NS.fit (fun _ => [[1]]) (fun _ => ([1], [[1]])) id id 1
      ⟨1, [0], false, [[[1]]], 1⟩ [[[1]]] [0] true =
      Except.ok ⟨1, [0], false, [[[1]], [[1]]], 1⟩ := by
    norm_num [RSCDT_NS.fit, RSCDT_NS.fitClassStep, RSCDT_NS.classFlat, RSCDT_NS.rscdt_parallel,
      RSCDT_NS.fun_rscdt_batch, RSCDT_NS.fun_rscdt_single, RSCDT_NS.fun_rscdt_single_args,
      RSCDT_NS.maxBasis, selectClass, matAddScalar, npEps, cumsum,
      npMax, firstIdxWhere, List.foldlM, List.range_succ, Except.bind,
      List.filterMap_cons, List.isEmpty_iff, List.take]
  have hc := fit_accumulates_state (fun _ => [[1]]) (fun _ => ([1], [[1]])) id id 1
    1 [0] false [[[1]]] [0] true [[[1]]] [0] true
    ⟨1, [0], false, [[[1]]], 1⟩ ⟨1, [0], false, [[[1]], [[1]]], 1⟩ h1 h2
  exact ⟨h1, h2, hc.2.2.2.1, hc.2.2.2.2.2.1⟩

/-- C1 fails in the unsigned variant because the entire basis-building
tail of MY_RDCT_NS.fit (SVD, cumulative-energy rank, len_subspace update,
append to subspaces) is commented out in the source: on a one-class
training set the unsigned fit returns the state unchanged, with no
stored basis and len_subspace still 0, while the signed fit on the same
data stores num_classes bases and the maximum rank. -/
theorem rcdt_fit_stores_nothing :
    MY_RDCT_NS.fit (fun _ => [[1]]) id id 1 (NSState.init 1 [0] false) 4 [[[1]]] [0] true =
      Except.ok (NSState.init 1 [0] false) ∧
    (NSState.init 1 [0] false).subspaces = [] ∧
    (NSState.init 1 [0] false).num_classes = 1 ∧
    (NSState.init 1 [0] false).len_subspace = 0 ∧
    RSCDT_NS.fit (fun _ => [[1]]) (fun _ => ([1], [[1]])) id id 1 (NSState.init 1 [0] false)
        [[[1]]] [0] true = Except.ok ⟨1, [0], false, [[[1]]], 1⟩ ∧
    ([[[1]]] : List Mat).length = (NSState.init 1 [0] false).num_classes := by
  refine ⟨rfl, rfl, rfl, rfl, ?_, rfl⟩
  norm_num [RSCDT_NS.fit, RSCDT_NS.fitClassStep, RSCDT_NS.classFlat, RSCDT_NS.rscdt_parallel,
    RSCDT_NS.fun_rscdt_batch, RSCDT_NS.fun_rscdt_single, RSCDT_NS.fun_rscdt_single_args,
    RSCDT_NS.maxBasis, selectClass, matAddScalar, npEps, cumsum,
    npMax, firstIdxWhere, List.foldlM, List.range_succ, NSState.init, Except.bind,
    List.filterMap_cons, List.isEmpty_iff, List.take]
